import Mathlib

/-!
Verification of the admission-controlled webhook queue
(`src/services/queue.js`), the retrying processor
(`src/services/processor.js`) and the optional worker pool
(`src/services/workerPool.js`).

The queue state is embedded shallowly: the JavaScript object fields
`queue` (pending entries), `processing` (set of in-flight tokens) and the
configured `concurrency` / `threshold` become fields of a Lean structure,
together with the metrics-sink counters the code reports to
(`incReceived`, `incTooMany`, `incProcessed`, `setQueueLength`,
`observeQueueTime`, `observeProcessingTime`).  Asynchrony is modelled by a
step relation: `enqueue` and the synchronous dispatch loop
`_scheduleProcessing` mutate the state atomically (the JS bookkeeping has
no await between mutations), and the settlement of one started
`processItem` promise is a separate `complete` step carrying the token and
the processor outcome.  Ghost fields (`admitted`, `started`, `settled`,
`extDequeued`, `dispatchCalls`) record the event history the spec talks
about; they are write-only instrumentation and never feed back into the
control flow.
-/

namespace Webhook

/-- Mirrors the `QueueOverloadedError` class thrown by `enqueue`. -/
inductive QueueOverloadedError : Type where
  | mk : QueueOverloadedError
deriving DecidableEq

/-- Final failure of the retrying processor (the rethrown error of the
second attempt). -/
inductive ProcessingError : Type where
  | mk : ProcessingError
deriving DecidableEq

/-- Equality of Except results is decidable when both components are. -/
instance {ε σ : Type} [DecidableEq ε] [DecidableEq σ] : DecidableEq (Except ε σ) := fun x y =>
  match x, y with
  | Except.ok a, Except.ok b => decidable_of_iff (a = b) (by simp)
  | Except.ok _, Except.error _ => isFalse (by simp)
  | Except.error _, Except.ok _ => isFalse (by simp)
  | Except.error e, Except.error f => decidable_of_iff (e = f) (by simp)

/-- State of one `WebhookQueue` instance plus the metrics sink it reports
to and ghost history fields.  `pending` entries are `(item, enqueuedAt)`
pairs, mirroring `{ item, enqueuedAt: Date.now() }`; `inFlight` is the
`processing` set of opaque tokens (fresh ids drawn from `nextToken`). -/
structure QState (α : Type) where
  pending : List (α × Nat)
  inFlight : List Nat
  nextToken : Nat
  concurrency : Nat
  threshold : Nat
  clock : Nat
  processNextDisabled : Bool
  received : Nat
  tooMany : Nat
  processed : Nat
  depthLog : List Nat
  queueTimeObs : List Nat
  procTimeObs : List Nat
  dispatchCalls : Nat
  admitted : List α
  started : List α
  settled : Nat
  extDequeued : List α

variable {α : Type}

/-- metrics.incReceived() -/
def incReceived (s : QState α) : QState α :=
  { s with received := s.received + 1 }

/-- metrics.incTooMany() -/
def incTooMany (s : QState α) : QState α :=
  { s with tooMany := s.tooMany + 1 }

/-- metrics.incProcessed() -/
def incProcessed (s : QState α) : QState α :=
  { s with processed := s.processed + 1 }

/-- WebhookQueue.totalItems(): `this.queue.length + this.processing.size`. -/
def totalItems (s : QState α) : Nat :=
  s.pending.length + s.inFlight.length

/-- WebhookQueue.size(): `this.queue.length + this.processing.size`. -/
def size (s : QState α) : Nat :=
  s.pending.length + s.inFlight.length

/-- metrics.setQueueLength(n): the depth metric is a gauge; we log every
reported value. -/
def setQueueLength (s : QState α) (n : Nat) : QState α :=
  { s with depthLog := s.depthLog ++ [n] }

/-- metrics.observeQueueTime(ms) -/
def observeQueueTime (s : QState α) (ms : Nat) : QState α :=
  { s with queueTimeObs := s.queueTimeObs ++ [ms] }

/-- metrics.observeProcessingTime(ms) -/
def observeProcessingTime (s : QState α) (ms : Nat) : QState α :=
  { s with procTimeObs := s.procTimeObs ++ [ms] }

/-- WebhookQueue.dequeue(): returns null on an empty queue (state
untouched); otherwise shifts the head entry, observes the queue time
`now - enqueuedAt` and reports the new depth. -/
def dequeue (s : QState α) : Option α × QState α :=
  match s.pending with
  | [] => (none, s)
  | entry :: rest =>
    let delta := s.clock - entry.2
    let s1 := { s with pending := rest }
    let s2 := observeQueueTime s1 delta
    let s3 := setQueueLength s2 (totalItems s2)
    (some entry.1, s3)

/-- Body of the `while` loop of WebhookQueue._scheduleProcessing, with
explicit fuel.  Each iteration requires
`processing.size < concurrency && queue.length > 0`, dequeues the head,
adds a fresh token to `processing`, reports the depth and starts a
Processor invocation (recorded in the ghost `started` log; its settlement
is the separate `complete` step). -/
def dispatchGo : Nat → QState α → QState α
  | 0, s => s
  | fuel + 1, s =>
    if s.inFlight.length < s.concurrency ∧ s.pending.isEmpty = false then
      match dequeue s with
      | (some item, s1) =>
        let t := s1.nextToken
        let s2 := { s1 with inFlight := s1.inFlight ++ [t],
                            nextToken := t + 1,
                            started := s1.started ++ [item] }
        let s3 := setQueueLength s2 (totalItems s2)
        dispatchGo fuel s3
      | (none, s1) => s1
    else s

/-- WebhookQueue._scheduleProcessing.  The fuel `s.pending.length` is
exact: every iteration removes one pending entry, so the JS `while` loop
runs at most that many times.  The ghost counter `dispatchCalls` counts
invocations of the dispatch loop. -/
def scheduleProcessing (s : QState α) : QState α :=
  dispatchGo s.pending.length { s with dispatchCalls := s.dispatchCalls + 1 }

/-- WebhookQueue.enqueue(item): incReceived, then the admission check
`queue.length + processing.size + 1 >= threshold` (reject with
incTooMany and QueueOverloadedError), else push `{item, enqueuedAt}`,
report the depth, and trigger the dispatch loop. -/
def enqueue (s : QState α) (item : α) : Except QueueOverloadedError Unit × QState α :=
  let s0 := incReceived s
  if s0.pending.length + s0.inFlight.length + 1 ≥ s0.threshold then
    (Except.error QueueOverloadedError.mk, incTooMany s0)
  else
    let s1 := { s0 with pending := s0.pending ++ [(item, s0.clock)],
                        admitted := s0.admitted ++ [item] }
    let s2 := setQueueLength s1 (totalItems s1)
    (Except.ok (), scheduleProcessing s2)

/-- WebhookQueue.processItem(item): awaits the processor; on success
incProcessed and observeProcessingTime, on failure the error is rethrown
and no success metric is touched.  The processor outcome is the `success`
argument (the unit of work is external to the queue). -/
def processItem (s : QState α) (success : Bool) : Except ProcessingError Unit × QState α :=
  let startTime := s.clock
  if success then
    let s1 := incProcessed s
    let s2 := observeProcessingTime s1 (s.clock - startTime)
    (Except.ok (), s2)
  else
    (Except.error ProcessingError.mk, s)

/-- Settlement of one started invocation, i.e. the continuation
`this.processItem(item).catch(() => {}).finally(() => { this.processing.delete(id);
this.metrics.setQueueLength(this.totalItems()); this._scheduleProcessing(); })`
attached by the dispatch loop to the token `t`.  A `complete` step only
exists for a token actually in flight.  The ghost `settled` counts
settlements. -/
def complete (s : QState α) (t : Nat) (success : Bool) : QState α :=
  if t ∈ s.inFlight then
    let s1 := (processItem s success).2
    let s2 := { s1 with inFlight := s1.inFlight.erase t, settled := s1.settled + 1 }
    let s3 := setQueueLength s2 (totalItems s2)
    scheduleProcessing s3
  else s

/-- WebhookQueue.processNext: deprecated alias of _scheduleProcessing.
The WorkerPool constructor with `disableQueueProcessing = true` (the
default) monkey-patches it to a no-op, which the flag
`processNextDisabled` records. -/
def processNext (s : QState α) : QState α :=
  if s.processNextDisabled then s else scheduleProcessing s

/-- The idle test of WebhookQueue.drain(), checked immediately and then on
every poll: `this.queue.length === 0 && this.processing.size === 0`.
drain() resolves exactly at a poll where this is true. -/
def drainResolvesNow (s : QState α) : Bool :=
  s.pending.length == 0 && s.inFlight.length == 0

/-- One observable step on the queue: an enqueue, an external dequeue (the
WorkerPool path), the settlement of an in-flight invocation, a call to the
(possibly patched) processNext, or the passage of time. -/
inductive Op (α : Type) where
  | enq (item : α)
  | deq
  | complete (t : Nat) (success : Bool)
  | procNext
  | tick (ms : Nat)

/-- Interpretation of one step.  An external dequeue records the removed
item in the ghost `extDequeued` log. -/
def runOp (s : QState α) (op : Op α) : QState α :=
  match op with
  | Op.enq item => (enqueue s item).2
  | Op.deq =>
    let r := dequeue s
    { r.2 with extDequeued := r.2.extDequeued ++ r.1.toList }
  | Op.complete t success => complete s t success
  | Op.procNext => processNext s
  | Op.tick ms => { s with clock := s.clock + ms }

/-- Run a sequence of steps. -/
def runOps (s : QState α) (ops : List (Op α)) : QState α :=
  List.foldl runOp s ops

/-- Freshly constructed WebhookQueue with the given configuration (empty
queue, empty processing set, zeroed metrics). -/
def initQ (α : Type) (concurrency threshold : Nat) (disabled : Bool) : QState α :=
  { pending := []
    inFlight := []
    nextToken := 0
    concurrency := concurrency
    threshold := threshold
    clock := 0
    processNextDisabled := disabled
    received := 0
    tooMany := 0
    processed := 0
    depthLog := []
    queueTimeObs := []
    procTimeObs := []
    dispatchCalls := 0
    admitted := []
    started := []
    settled := 0
    extDequeued := [] }

/-! The retrying processor of `src/services/processor.js`.  The unit of
work (`attemptProcessing`) succeeds or fails according to an external
oracle: `ok1` is the outcome of the first attempt, `ok2` of the second.
The trace of observable events (delays awaited, attempts performed) is
returned alongside the result. -/

/-- One observable event of a processWithRetry run: an awaited
simulateProcessingDelay, or the n-th attemptProcessing call. -/
inductive PEvent : Type where
  | delay : PEvent
  | attempt (n : Nat) : PEvent
deriving DecidableEq

/-- simulateProcessingDelay(): one awaited delay. -/
def simulateProcessingDelay : List PEvent :=
  [PEvent.delay]

/-- attemptProcessing(item): resolves when the oracle says the n-th
attempt succeeds, rejects otherwise. -/
def attemptProcessing (ok : Bool) (n : Nat) : Except ProcessingError Unit × List PEvent :=
  (if ok then Except.ok () else Except.error ProcessingError.mk, [PEvent.attempt n])

/-- processWithRetry(item): delay, first attempt; on failure another
delay and a second, final attempt whose failure is rethrown. -/
def processWithRetry (ok1 ok2 : Bool) : Except ProcessingError Unit × List PEvent :=
  let d1 := simulateProcessingDelay
  match attemptProcessing ok1 1 with
  | (Except.ok r, e1) => (Except.ok r, d1 ++ e1)
  | (Except.error _, e1) =>
    let d2 := simulateProcessingDelay
    match attemptProcessing ok2 2 with
    | (Except.ok r, e2) => (Except.ok r, d1 ++ e1 ++ d2 ++ e2)
    | (Except.error err, e2) => (Except.error err, d1 ++ e1 ++ d2 ++ e2)

/-- Number of attempts in a trace. -/
def attemptCount (evs : List PEvent) : Nat :=
  (evs.filter fun e => match e with | PEvent.attempt _ => true | _ => false).length

/-- Number of delays in a trace occurring strictly after the first
attempt: the inter-attempt delays (the initial simulated processing delay
comes before the first attempt and is not one of them). -/
def interAttemptDelays (evs : List PEvent) : Nat :=
  ((evs.dropWhile fun e => e ≠ PEvent.attempt 1).filter
    fun e => match e with | PEvent.delay => true | _ => false).length

/-- Inductive invariant of every reachable queue state: in-flight tokens
are distinct and below the fresh counter, the concurrency bound holds, the
ghost logs account for every admitted item (an admitted item is started,
externally dequeued, or still pending; a started one is settled or in
flight), admitted order is started order followed by pending order as long
as no external consumer has dequeued, and the resident count stays below
the threshold. -/
def StateInv (s : QState α) : Prop :=
  s.inFlight.Nodup ∧
  (∀ x ∈ s.inFlight, x < s.nextToken) ∧
  s.inFlight.length ≤ s.concurrency ∧
  s.admitted.length = s.started.length + s.extDequeued.length + s.pending.length ∧
  s.started.length = s.settled + s.inFlight.length ∧
  (s.extDequeued = [] → s.admitted = s.started ++ s.pending.map Prod.fst) ∧
  (1 ≤ s.threshold → s.pending.length + s.inFlight.length < s.threshold)

/-! Characterisation of one iteration of the dispatch loop. -/

/-- The state after one iteration of the `while` body of
_scheduleProcessing, starting from a state whose pending head is `e`:
dequeue `e` (queue-time and depth metrics included), add the fresh token,
log the new depth, record the start. -/
def iterState (s : QState α) (e : α × Nat) (rest : List (α × Nat)) : QState α :=
  let s1 := { s with pending := rest }
  let s2 := observeQueueTime s1 (s.clock - e.2)
  let s3 := setQueueLength s2 (totalItems s2)
  let s4 := { s3 with inFlight := s3.inFlight ++ [s3.nextToken],
                      nextToken := s3.nextToken + 1,
                      started := s3.started ++ [e.1] }
  setQueueLength s4 (totalItems s4)

/-- The state after a successful dequeue whose head entry is `e`: remove
the head, observe the queue time, report the new depth. -/
def deqState (s : QState α) (e : α × Nat) (rest : List (α × Nat)) : QState α :=
  let s1 := { s with pending := rest }
  let s2 := observeQueueTime s1 (s.clock - e.2)
  setQueueLength s2 (totalItems s2)

lemma dispatchGo_succ_cons (fuel : Nat) (s : QState α) (e : α × Nat)
    (rest : List (α × Nat)) (hp : s.pending = e :: rest)
    (hc : s.inFlight.length < s.concurrency) :
    dispatchGo (fuel + 1) s = dispatchGo fuel (iterState s e rest) := by
  have hne : s.pending.isEmpty = false := by rw [hp]; rfl
  simp only [dispatchGo]
  rw [if_pos ⟨hc, hne⟩]
  simp only [dequeue, hp]
  rfl

lemma dispatchGo_noCapacity (fuel : Nat) (s : QState α)
    (hc : ¬ s.inFlight.length < s.concurrency) :
    dispatchGo fuel s = s := by
  cases fuel with
  | zero => rfl
  | succ n =>
    simp only [dispatchGo]
    rw [if_neg]
    intro h
    exact hc h.1

lemma dispatchGo_noPending (fuel : Nat) (s : QState α)
    (hp : s.pending = []) :
    dispatchGo fuel s = s := by
  cases fuel with
  | zero => rfl
  | succ n =>
    simp only [dispatchGo]
    rw [if_neg]
    intro h
    rw [hp] at h
    exact absurd h.2 (by simp [List.isEmpty])

@[simp] lemma iterState_pending (s : QState α) (e : α × Nat) (rest : List (α × Nat)) :
    (iterState s e rest).pending = rest := rfl

@[simp] lemma iterState_inFlight (s : QState α) (e : α × Nat) (rest : List (α × Nat)) :
    (iterState s e rest).inFlight = s.inFlight ++ [s.nextToken] := rfl

@[simp] lemma iterState_nextToken (s : QState α) (e : α × Nat) (rest : List (α × Nat)) :
    (iterState s e rest).nextToken = s.nextToken + 1 := rfl

@[simp] lemma iterState_started (s : QState α) (e : α × Nat) (rest : List (α × Nat)) :
    (iterState s e rest).started = s.started ++ [e.1] := rfl

@[simp] lemma iterState_concurrency (s : QState α) (e : α × Nat) (rest : List (α × Nat)) :
    (iterState s e rest).concurrency = s.concurrency := rfl

@[simp] lemma iterState_threshold (s : QState α) (e : α × Nat) (rest : List (α × Nat)) :
    (iterState s e rest).threshold = s.threshold := rfl

@[simp] lemma iterState_clock (s : QState α) (e : α × Nat) (rest : List (α × Nat)) :
    (iterState s e rest).clock = s.clock := rfl

@[simp] lemma iterState_processNextDisabled (s : QState α) (e : α × Nat) (rest : List (α × Nat)) :
    (iterState s e rest).processNextDisabled = s.processNextDisabled := rfl

@[simp] lemma iterState_received (s : QState α) (e : α × Nat) (rest : List (α × Nat)) :
    (iterState s e rest).received = s.received := rfl

@[simp] lemma iterState_tooMany (s : QState α) (e : α × Nat) (rest : List (α × Nat)) :
    (iterState s e rest).tooMany = s.tooMany := rfl

@[simp] lemma iterState_processed (s : QState α) (e : α × Nat) (rest : List (α × Nat)) :
    (iterState s e rest).processed = s.processed := rfl

@[simp] lemma iterState_procTimeObs (s : QState α) (e : α × Nat) (rest : List (α × Nat)) :
    (iterState s e rest).procTimeObs = s.procTimeObs := rfl

@[simp] lemma iterState_dispatchCalls (s : QState α) (e : α × Nat) (rest : List (α × Nat)) :
    (iterState s e rest).dispatchCalls = s.dispatchCalls := rfl

@[simp] lemma iterState_admitted (s : QState α) (e : α × Nat) (rest : List (α × Nat)) :
    (iterState s e rest).admitted = s.admitted := rfl

@[simp] lemma iterState_settled (s : QState α) (e : α × Nat) (rest : List (α × Nat)) :
    (iterState s e rest).settled = s.settled := rfl

@[simp] lemma iterState_extDequeued (s : QState α) (e : α × Nat) (rest : List (α × Nat)) :
    (iterState s e rest).extDequeued = s.extDequeued := rfl

@[simp] lemma iterState_depthLog (s : QState α) (e : α × Nat) (rest : List (α × Nat)) :
    (iterState s e rest).depthLog =
      (s.depthLog ++ [rest.length + s.inFlight.length])
        ++ [rest.length + (s.inFlight ++ [s.nextToken]).length] := rfl

/-- Fields of the state the dispatch loop never touches. -/
lemma dispatchGo_frame (fuel : Nat) (s : QState α) :
    (dispatchGo fuel s).concurrency = s.concurrency ∧
    (dispatchGo fuel s).threshold = s.threshold ∧
    (dispatchGo fuel s).clock = s.clock ∧
    (dispatchGo fuel s).processNextDisabled = s.processNextDisabled ∧
    (dispatchGo fuel s).received = s.received ∧
    (dispatchGo fuel s).tooMany = s.tooMany ∧
    (dispatchGo fuel s).processed = s.processed ∧
    (dispatchGo fuel s).procTimeObs = s.procTimeObs ∧
    (dispatchGo fuel s).dispatchCalls = s.dispatchCalls ∧
    (dispatchGo fuel s).admitted = s.admitted ∧
    (dispatchGo fuel s).settled = s.settled ∧
    (dispatchGo fuel s).extDequeued = s.extDequeued := by
  induction fuel generalizing s with
  | zero => exact ⟨rfl, rfl, rfl, rfl, rfl, rfl, rfl, rfl, rfl, rfl, rfl, rfl⟩
  | succ n ih =>
    by_cases hc : s.inFlight.length < s.concurrency
    · cases hp : s.pending with
      | nil => rw [dispatchGo_noPending _ _ hp]; exact ⟨rfl, rfl, rfl, rfl, rfl, rfl, rfl, rfl, rfl, rfl, rfl, rfl⟩
      | cons e rest =>
        rw [dispatchGo_succ_cons n s e rest hp hc]
        simpa using ih (iterState s e rest)
    · rw [dispatchGo_noCapacity _ _ hc]
      exact ⟨rfl, rfl, rfl, rfl, rfl, rfl, rfl, rfl, rfl, rfl, rfl, rfl⟩

/-- The dispatch loop moves entries from pending to inFlight: the total
resident count is preserved. -/
lemma dispatchGo_sum (fuel : Nat) (s : QState α) :
    (dispatchGo fuel s).pending.length + (dispatchGo fuel s).inFlight.length
      = s.pending.length + s.inFlight.length := by
  induction fuel generalizing s with
  | zero => rfl
  | succ n ih =>
    by_cases hc : s.inFlight.length < s.concurrency
    · cases hp : s.pending with
      | nil => rw [dispatchGo_noPending _ _ hp, hp]
      | cons e rest =>
        rw [dispatchGo_succ_cons n s e rest hp hc]
        have h := ih (iterState s e rest)
        simp only [iterState_pending, iterState_inFlight] at h
        simp only [List.length_append, List.length_cons, List.length_nil] at h ⊢
        omega
    · rw [dispatchGo_noCapacity _ _ hc]

/-- The dispatch loop consumes pending in FIFO order: the concatenation of
the started log and the remaining pending payloads is preserved. -/
lemma dispatchGo_startedPending (fuel : Nat) (s : QState α) :
    (dispatchGo fuel s).started ++ (dispatchGo fuel s).pending.map Prod.fst
      = s.started ++ s.pending.map Prod.fst := by
  induction fuel generalizing s with
  | zero => rfl
  | succ n ih =>
    by_cases hc : s.inFlight.length < s.concurrency
    · cases hp : s.pending with
      | nil => rw [dispatchGo_noPending _ _ hp, hp]
      | cons e rest =>
        rw [dispatchGo_succ_cons n s e rest hp hc]
        have h := ih (iterState s e rest)
        simp only [iterState_pending, iterState_started] at h
        rw [h, List.append_assoc]
        simp
    · rw [dispatchGo_noCapacity _ _ hc]

/-- Each start adds one token and one started entry. -/
lemma dispatchGo_startedInFlight (fuel : Nat) (s : QState α) :
    (dispatchGo fuel s).started.length + s.inFlight.length
      = s.started.length + (dispatchGo fuel s).inFlight.length := by
  induction fuel generalizing s with
  | zero => rfl
  | succ n ih =>
    by_cases hc : s.inFlight.length < s.concurrency
    · cases hp : s.pending with
      | nil => rw [dispatchGo_noPending _ _ hp]
      | cons e rest =>
        rw [dispatchGo_succ_cons n s e rest hp hc]
        have h := ih (iterState s e rest)
        simp only [iterState_started, iterState_inFlight, List.length_append,
          List.length_singleton] at h
        omega
    · rw [dispatchGo_noCapacity _ _ hc]

/-- The loop guard keeps the in-flight count within the concurrency
limit. -/
lemma dispatchGo_inFlight_le (fuel : Nat) (s : QState α)
    (h : s.inFlight.length ≤ s.concurrency) :
    (dispatchGo fuel s).inFlight.length ≤ s.concurrency := by
  induction fuel generalizing s with
  | zero => exact h
  | succ n ih =>
    by_cases hc : s.inFlight.length < s.concurrency
    · cases hp : s.pending with
      | nil => rw [dispatchGo_noPending _ _ hp]; exact h
      | cons e rest =>
        rw [dispatchGo_succ_cons n s e rest hp hc]
        have h2 : (iterState s e rest).inFlight.length ≤ (iterState s e rest).concurrency := by
          simp only [iterState_inFlight, iterState_concurrency, List.length_append,
            List.length_singleton]
          omega
        simpa using ih (iterState s e rest) h2
    · rw [dispatchGo_noCapacity _ _ hc]; exact h

/-- The fresh-token counter never decreases. -/
lemma dispatchGo_nextToken_le (fuel : Nat) (s : QState α) :
    s.nextToken ≤ (dispatchGo fuel s).nextToken := by
  induction fuel generalizing s with
  | zero => exact Nat.le_refl _
  | succ n ih =>
    by_cases hc : s.inFlight.length < s.concurrency
    · cases hp : s.pending with
      | nil => rw [dispatchGo_noPending _ _ hp]
      | cons e rest =>
        rw [dispatchGo_succ_cons n s e rest hp hc]
        have h := ih (iterState s e rest)
        simp only [iterState_nextToken] at h
        omega
    · rw [dispatchGo_noCapacity _ _ hc]

/-- Every token in flight after the loop was in flight before, or is one
of the freshly allocated ones. -/
lemma dispatchGo_inFlight_mem (fuel : Nat) (s : QState α) :
    ∀ x ∈ (dispatchGo fuel s).inFlight, x ∈ s.inFlight ∨ s.nextToken ≤ x := by
  induction fuel generalizing s with
  | zero => exact fun x hx => Or.inl hx
  | succ n ih =>
    by_cases hc : s.inFlight.length < s.concurrency
    · cases hp : s.pending with
      | nil => rw [dispatchGo_noPending _ _ hp]; exact fun x hx => Or.inl hx
      | cons e rest =>
        rw [dispatchGo_succ_cons n s e rest hp hc]
        intro x hx
        rcases ih (iterState s e rest) x hx with h | h
        · simp only [iterState_inFlight, List.mem_append, List.mem_singleton] at h
          rcases h with h | h
          · exact Or.inl h
          · exact Or.inr (by omega)
        · simp only [iterState_nextToken] at h
          exact Or.inr (by omega)
    · rw [dispatchGo_noCapacity _ _ hc]; exact fun x hx => Or.inl hx

/-- Distinctness and boundedness of in-flight tokens is preserved by the
dispatch loop. -/
lemma dispatchGo_tokenInv (fuel : Nat) (s : QState α)
    (h1 : s.inFlight.Nodup) (h2 : ∀ x ∈ s.inFlight, x < s.nextToken) :
    (dispatchGo fuel s).inFlight.Nodup ∧
      ∀ x ∈ (dispatchGo fuel s).inFlight, x < (dispatchGo fuel s).nextToken := by
  induction fuel generalizing s with
  | zero => exact ⟨h1, h2⟩
  | succ n ih =>
    by_cases hc : s.inFlight.length < s.concurrency
    · cases hp : s.pending with
      | nil => rw [dispatchGo_noPending _ _ hp]; exact ⟨h1, h2⟩
      | cons e rest =>
        rw [dispatchGo_succ_cons n s e rest hp hc]
        have h1' : (iterState s e rest).inFlight.Nodup := by
          simp only [iterState_inFlight]
          rw [List.nodup_append]
          refine ⟨h1, List.nodup_singleton _, ?_⟩
          intro x hx hx'
          rw [List.mem_singleton] at hx'
          subst hx'
          exact absurd (h2 _ hx) (Nat.lt_irrefl _)
        have h2' : ∀ x ∈ (iterState s e rest).inFlight, x < (iterState s e rest).nextToken := by
          intro x hx
          simp only [iterState_inFlight, List.mem_append, List.mem_singleton] at hx
          simp only [iterState_nextToken]
          rcases hx with hx | hx
          · exact Nat.lt_succ_of_lt (h2 x hx)
          · omega
        exact ih (iterState s e rest) h1' h2'
    · rw [dispatchGo_noCapacity _ _ hc]; exact ⟨h1, h2⟩

/-- The dispatch loop only appends to the depth-metric log. -/
lemma dispatchGo_depthLog_mono (fuel : Nat) (s : QState α) :
    s.depthLog.length ≤ (dispatchGo fuel s).depthLog.length := by
  induction fuel generalizing s with
  | zero => exact Nat.le_refl _
  | succ n ih =>
    by_cases hc : s.inFlight.length < s.concurrency
    · cases hp : s.pending with
      | nil => rw [dispatchGo_noPending _ _ hp]
      | cons e rest =>
        rw [dispatchGo_succ_cons n s e rest hp hc]
        have h := ih (iterState s e rest)
        simp only [iterState_depthLog, List.length_append, List.length_singleton] at h
        omega
    · rw [dispatchGo_noCapacity _ _ hc]

/-! Corollaries for _scheduleProcessing (the loop run on the state with
the ghost invocation counter bumped). -/

lemma scheduleProcessing_frame (s : QState α) :
    (scheduleProcessing s).concurrency = s.concurrency ∧
    (scheduleProcessing s).threshold = s.threshold ∧
    (scheduleProcessing s).clock = s.clock ∧
    (scheduleProcessing s).processNextDisabled = s.processNextDisabled ∧
    (scheduleProcessing s).received = s.received ∧
    (scheduleProcessing s).tooMany = s.tooMany ∧
    (scheduleProcessing s).processed = s.processed ∧
    (scheduleProcessing s).procTimeObs = s.procTimeObs ∧
    (scheduleProcessing s).dispatchCalls = s.dispatchCalls + 1 ∧
    (scheduleProcessing s).admitted = s.admitted ∧
    (scheduleProcessing s).settled = s.settled ∧
    (scheduleProcessing s).extDequeued = s.extDequeued := by
  simpa [scheduleProcessing] using
    dispatchGo_frame s.pending.length { s with dispatchCalls := s.dispatchCalls + 1 }

lemma scheduleProcessing_sum (s : QState α) :
    (scheduleProcessing s).pending.length + (scheduleProcessing s).inFlight.length
      = s.pending.length + s.inFlight.length := by
  simpa [scheduleProcessing] using
    dispatchGo_sum s.pending.length { s with dispatchCalls := s.dispatchCalls + 1 }

lemma scheduleProcessing_startedPending (s : QState α) :
    (scheduleProcessing s).started ++ (scheduleProcessing s).pending.map Prod.fst
      = s.started ++ s.pending.map Prod.fst := by
  simpa [scheduleProcessing] using
    dispatchGo_startedPending s.pending.length { s with dispatchCalls := s.dispatchCalls + 1 }

lemma scheduleProcessing_startedInFlight (s : QState α) :
    (scheduleProcessing s).started.length + s.inFlight.length
      = s.started.length + (scheduleProcessing s).inFlight.length := by
  simpa [scheduleProcessing] using
    dispatchGo_startedInFlight s.pending.length { s with dispatchCalls := s.dispatchCalls + 1 }

lemma scheduleProcessing_inFlight_le (s : QState α)
    (h : s.inFlight.length ≤ s.concurrency) :
    (scheduleProcessing s).inFlight.length ≤ s.concurrency := by
  simpa [scheduleProcessing] using
    dispatchGo_inFlight_le s.pending.length { s with dispatchCalls := s.dispatchCalls + 1 } h

lemma scheduleProcessing_nextToken_le (s : QState α) :
    s.nextToken ≤ (scheduleProcessing s).nextToken := by
  simpa [scheduleProcessing] using
    dispatchGo_nextToken_le s.pending.length { s with dispatchCalls := s.dispatchCalls + 1 }

lemma scheduleProcessing_inFlight_mem (s : QState α) :
    ∀ x ∈ (scheduleProcessing s).inFlight, x ∈ s.inFlight ∨ s.nextToken ≤ x := by
  simpa [scheduleProcessing] using
    dispatchGo_inFlight_mem s.pending.length { s with dispatchCalls := s.dispatchCalls + 1 }

lemma scheduleProcessing_tokenInv (s : QState α)
    (h1 : s.inFlight.Nodup) (h2 : ∀ x ∈ s.inFlight, x < s.nextToken) :
    (scheduleProcessing s).inFlight.Nodup ∧
      ∀ x ∈ (scheduleProcessing s).inFlight, x < (scheduleProcessing s).nextToken := by
  simpa [scheduleProcessing] using
    dispatchGo_tokenInv s.pending.length { s with dispatchCalls := s.dispatchCalls + 1 } h1 h2

lemma scheduleProcessing_depthLog_mono (s : QState α) :
    s.depthLog.length ≤ (scheduleProcessing s).depthLog.length := by
  simpa [scheduleProcessing] using
    dispatchGo_depthLog_mono s.pending.length { s with dispatchCalls := s.dispatchCalls + 1 }

/-- _scheduleProcessing preserves the reachable-state invariant. -/
lemma scheduleProcessing_inv (s : QState α) (h : StateInv s) :
    StateInv (scheduleProcessing s) := by
  obtain ⟨h1, h2, h3, h4, h5, h6, h7⟩ := h
  obtain ⟨hconc, hth, -, -, -, -, -, -, -, hadm, hset, hext⟩ := scheduleProcessing_frame s
  obtain ⟨n1, n2⟩ := scheduleProcessing_tokenInv s h1 h2
  have hsum := scheduleProcessing_sum s
  have hsif := scheduleProcessing_startedInFlight s
  refine ⟨n1, n2, ?_, ?_, ?_, ?_, ?_⟩
  · rw [hconc]; exact scheduleProcessing_inFlight_le s h3
  · rw [hadm, hset, hext] at *
    omega
  · rw [hset]
    omega
  · intro hE
    rw [hext] at hE
    have hsp := scheduleProcessing_startedPending s
    rw [hadm, hsp]
    exact h6 hE
  · rw [hth]
    intro ht
    have := h7 ht
    omega

/-! Behaviour of dequeue and processItem, and preservation of the
invariant by every step. -/

lemma dequeue_nil (s : QState α) (hp : s.pending = []) :
    dequeue s = (none, s) := by
  simp only [dequeue, hp]

lemma dequeue_cons (s : QState α) (e : α × Nat) (rest : List (α × Nat))
    (hp : s.pending = e :: rest) :
    dequeue s = (some e.1, deqState s e rest) := by
  simp only [dequeue, hp]
  rfl

@[simp] lemma deqState_pending (s : QState α) (e : α × Nat) (rest : List (α × Nat)) :
    (deqState s e rest).pending = rest := rfl

@[simp] lemma deqState_inFlight (s : QState α) (e : α × Nat) (rest : List (α × Nat)) :
    (deqState s e rest).inFlight = s.inFlight := rfl

@[simp] lemma deqState_nextToken (s : QState α) (e : α × Nat) (rest : List (α × Nat)) :
    (deqState s e rest).nextToken = s.nextToken := rfl

@[simp] lemma deqState_concurrency (s : QState α) (e : α × Nat) (rest : List (α × Nat)) :
    (deqState s e rest).concurrency = s.concurrency := rfl

@[simp] lemma deqState_threshold (s : QState α) (e : α × Nat) (rest : List (α × Nat)) :
    (deqState s e rest).threshold = s.threshold := rfl

@[simp] lemma deqState_admitted (s : QState α) (e : α × Nat) (rest : List (α × Nat)) :
    (deqState s e rest).admitted = s.admitted := rfl

@[simp] lemma deqState_started (s : QState α) (e : α × Nat) (rest : List (α × Nat)) :
    (deqState s e rest).started = s.started := rfl

@[simp] lemma deqState_settled (s : QState α) (e : α × Nat) (rest : List (α × Nat)) :
    (deqState s e rest).settled = s.settled := rfl

@[simp] lemma deqState_extDequeued (s : QState α) (e : α × Nat) (rest : List (α × Nat)) :
    (deqState s e rest).extDequeued = s.extDequeued := rfl

@[simp] lemma deqState_processed (s : QState α) (e : α × Nat) (rest : List (α × Nat)) :
    (deqState s e rest).processed = s.processed := rfl

@[simp] lemma deqState_received (s : QState α) (e : α × Nat) (rest : List (α × Nat)) :
    (deqState s e rest).received = s.received := rfl

@[simp] lemma deqState_tooMany (s : QState α) (e : α × Nat) (rest : List (α × Nat)) :
    (deqState s e rest).tooMany = s.tooMany := rfl

@[simp] lemma deqState_dispatchCalls (s : QState α) (e : α × Nat) (rest : List (α × Nat)) :
    (deqState s e rest).dispatchCalls = s.dispatchCalls := rfl

/-- processItem only touches the success metrics; the queue state proper
is untouched whatever the processor outcome. -/
lemma processItem_frame (s : QState α) (b : Bool) :
    (processItem s b).2.pending = s.pending ∧
    (processItem s b).2.inFlight = s.inFlight ∧
    (processItem s b).2.nextToken = s.nextToken ∧
    (processItem s b).2.concurrency = s.concurrency ∧
    (processItem s b).2.threshold = s.threshold ∧
    (processItem s b).2.clock = s.clock ∧
    (processItem s b).2.admitted = s.admitted ∧
    (processItem s b).2.started = s.started ∧
    (processItem s b).2.settled = s.settled ∧
    (processItem s b).2.extDequeued = s.extDequeued ∧
    (processItem s b).2.depthLog = s.depthLog ∧
    (processItem s b).2.received = s.received ∧
    (processItem s b).2.tooMany = s.tooMany ∧
    (processItem s b).2.dispatchCalls = s.dispatchCalls := by
  cases b <;>
    exact ⟨rfl, rfl, rfl, rfl, rfl, rfl, rfl, rfl, rfl, rfl, rfl, rfl, rfl, rfl⟩

/-- incProcessed is reached exactly on processor success. -/
lemma processItem_processed (s : QState α) (b : Bool) :
    (processItem s b).2.processed = (if b then s.processed + 1 else s.processed) := by
  cases b <;> rfl

/-- Unfolded form of enqueue: the admission test on the state before the
call decides between rejection and admission followed by the dispatch
loop. -/
lemma enqueue_eq (s : QState α) (a : α) :
    enqueue s a =
      if s.pending.length + s.inFlight.length + 1 ≥ s.threshold then
        (Except.error QueueOverloadedError.mk, incTooMany (incReceived s))
      else
        (Except.ok (), scheduleProcessing (setQueueLength
          { incReceived s with
              pending := s.pending ++ [(a, s.clock)],
              admitted := s.admitted ++ [a] }
          (totalItems { incReceived s with
              pending := s.pending ++ [(a, s.clock)],
              admitted := s.admitted ++ [a] }))) := rfl

/-- enqueue preserves the reachable-state invariant. -/
lemma enqueue_inv (s : QState α) (a : α) (h : StateInv s) :
    StateInv (enqueue s a).2 := by
  obtain ⟨h1, h2, h3, h4, h5, h6, h7⟩ := h
  rw [enqueue_eq]
  by_cases hover : s.pending.length + s.inFlight.length + 1 ≥ s.threshold
  · rw [if_pos hover]
    exact ⟨h1, h2, h3, h4, h5, h6, h7⟩
  · rw [if_neg hover]
    apply scheduleProcessing_inv
    refine ⟨h1, h2, h3, ?_, h5, ?_, ?_⟩
    · show (s.admitted ++ [a]).length =
        s.started.length + s.extDequeued.length + (s.pending ++ [(a, s.clock)]).length
      simp only [List.length_append, List.length_cons, List.length_nil]
      omega
    · show s.extDequeued = [] →
        s.admitted ++ [a] = s.started ++ (s.pending ++ [(a, s.clock)]).map Prod.fst
      intro hE
      simp [h6 hE]
    · show 1 ≤ s.threshold →
        (s.pending ++ [(a, s.clock)]).length + s.inFlight.length < s.threshold
      intro ht
      simp only [List.length_append, List.length_cons, List.length_nil]
      omega

/-- Settlement of an in-flight invocation preserves the reachable-state
invariant. -/
lemma complete_inv (s : QState α) (t : Nat) (b : Bool) (h : StateInv s) :
    StateInv (complete s t b) := by
  obtain ⟨h1, h2, h3, h4, h5, h6, h7⟩ := h
  unfold complete
  split
  case isTrue ht =>
    have hpos : 0 < s.inFlight.length :=
      List.length_pos.mpr (List.ne_nil_of_mem ht)
    have herase : (s.inFlight.erase t).length = s.inFlight.length - 1 :=
      List.length_erase_of_mem ht
    apply scheduleProcessing_inv
    obtain ⟨fp, ff, fn, fc, fth, fck, fa, fs, fse, fx, fd, fr, ftm, fdc⟩ :=
      processItem_frame s b
    refine ⟨?_, ?_, ?_, ?_, ?_, ?_, ?_⟩
    · show ((processItem s b).2.inFlight.erase t).Nodup
      rw [ff]
      exact h1.erase t
    · show ∀ x ∈ (processItem s b).2.inFlight.erase t,
        x < (processItem s b).2.nextToken
      rw [ff, fn]
      exact fun x hx => h2 x (List.mem_of_mem_erase hx)
    · show ((processItem s b).2.inFlight.erase t).length ≤ (processItem s b).2.concurrency
      rw [ff, fc, herase]
      omega
    · show (processItem s b).2.admitted.length =
        (processItem s b).2.started.length + (processItem s b).2.extDequeued.length +
          (processItem s b).2.pending.length
      rw [fa, fs, fx, fp]
      exact h4
    · show (processItem s b).2.started.length =
        (processItem s b).2.settled + 1 + ((processItem s b).2.inFlight.erase t).length
      rw [fs, fse, ff, herase]
      omega
    · show (processItem s b).2.extDequeued = [] →
        (processItem s b).2.admitted =
          (processItem s b).2.started ++ (processItem s b).2.pending.map Prod.fst
      rw [fx, fa, fs, fp]
      exact h6
    · show 1 ≤ (processItem s b).2.threshold →
        (processItem s b).2.pending.length + ((processItem s b).2.inFlight.erase t).length
          < (processItem s b).2.threshold
      rw [fth, fp, ff, herase]
      intro hth
      have := h7 hth
      omega
  case isFalse => exact ⟨h1, h2, h3, h4, h5, h6, h7⟩

/-- Every step preserves the reachable-state invariant. -/
lemma runOp_inv (s : QState α) (op : Op α) (h : StateInv s) :
    StateInv (runOp s op) := by
  cases op with
  | enq a => exact enqueue_inv s a h
  | deq =>
    obtain ⟨h1, h2, h3, h4, h5, h6, h7⟩ := h
    cases hp : s.pending with
    | nil =>
      simp only [runOp, dequeue_nil s hp, Option.toList_none]
      refine ⟨h1, h2, h3, ?_, h5, ?_, ?_⟩ <;>
        simp only [List.append_nil]
      · exact h4
      · exact h6
      · exact h7
    | cons e rest =>
      simp only [runOp, dequeue_cons s e rest hp, Option.toList_some]
      rw [hp] at h4 h7
      refine ⟨h1, h2, h3, ?_, h5, ?_, ?_⟩
      · simp only [deqState_admitted, deqState_started, deqState_extDequeued,
          deqState_pending, List.length_append, List.length_cons, List.length_nil] at h4 ⊢
        omega
      · intro hE
        exact absurd hE (by simp)
      · simp only [deqState_pending, deqState_inFlight, deqState_threshold,
          List.length_cons] at h7 ⊢
        intro ht
        have := h7 ht
        omega
  | complete t b => exact complete_inv s t b h
  | procNext =>
    simp only [runOp, processNext]
    split
    · exact h
    · exact scheduleProcessing_inv s h
  | tick ms => exact h

/-- A freshly constructed queue satisfies the invariant. -/
lemma initQ_inv (concurrency threshold : Nat) (disabled : Bool) :
    StateInv (initQ α concurrency threshold disabled) := by
  refine ⟨List.nodup_nil, ?_, ?_, rfl, rfl, ?_, ?_⟩
  · intro x hx
    exact absurd hx (List.not_mem_nil x)
  · exact Nat.zero_le _
  · intro
    rfl
  · intro ht
    simpa using ht

/-- Every state reachable from a freshly constructed queue satisfies the
invariant. -/
lemma runOps_inv (s : QState α) (ops : List (Op α)) (h : StateInv s) :
    StateInv (runOps s ops) := by
  induction ops generalizing s with
  | nil => exact h
  | cons op rest ih => exact ih (runOp s op) (runOp_inv s op h)

/-- When the loop guard fails (no free slot, or nothing pending) the
dispatch loop starts nothing: it only bumps the ghost invocation
counter. -/
lemma scheduleProcessing_noStart (s : QState α)
    (h : s.concurrency ≤ s.inFlight.length ∨ s.pending = []) :
    scheduleProcessing s = { s with dispatchCalls := s.dispatchCalls + 1 } := by
  unfold scheduleProcessing
  rcases h with h | h
  · exact dispatchGo_noCapacity _ _ (Nat.not_lt.mpr h)
  · exact dispatchGo_noPending _ _ h

/-- No step changes the configured limits. -/
lemma runOp_config (s : QState α) (op : Op α) :
    (runOp s op).concurrency = s.concurrency ∧ (runOp s op).threshold = s.threshold := by
  cases op with
  | enq a =>
    show ((enqueue s a).2.concurrency = _) ∧ ((enqueue s a).2.threshold = _)
    rw [enqueue_eq]
    by_cases hover : s.pending.length + s.inFlight.length + 1 ≥ s.threshold
    · rw [if_pos hover]; exact ⟨rfl, rfl⟩
    · rw [if_neg hover]
      obtain ⟨hc, hth, -, -, -, -, -, -, -, -, -, -⟩ := scheduleProcessing_frame
        (setQueueLength
          { incReceived s with
              pending := s.pending ++ [(a, s.clock)],
              admitted := s.admitted ++ [a] }
          (totalItems { incReceived s with
              pending := s.pending ++ [(a, s.clock)],
              admitted := s.admitted ++ [a] }))
      exact ⟨hc, hth⟩
  | deq =>
    cases hp : s.pending with
    | nil => simp [runOp, dequeue_nil s hp]
    | cons e rest => simp [runOp, dequeue_cons s e rest hp]
  | complete t b =>
    show (complete s t b).concurrency = s.concurrency ∧
      (complete s t b).threshold = s.threshold
    unfold complete
    split
    · obtain ⟨-, -, -, fc, fth, -, -, -, -, -, -, -, -, -⟩ := processItem_frame s b
      obtain ⟨hc, hth, -, -, -, -, -, -, -, -, -, -⟩ := scheduleProcessing_frame
        (setQueueLength
          { (processItem s b).2 with
              inFlight := (processItem s b).2.inFlight.erase t,
              settled := (processItem s b).2.settled + 1 }
          (totalItems { (processItem s b).2 with
              inFlight := (processItem s b).2.inFlight.erase t,
              settled := (processItem s b).2.settled + 1 }))
      exact ⟨hc.trans fc, hth.trans fth⟩
    · exact ⟨rfl, rfl⟩
  | procNext =>
    simp only [runOp, processNext]
    split
    · exact ⟨rfl, rfl⟩
    · obtain ⟨hc, hth, -, -, -, -, -, -, -, -, -, -⟩ := scheduleProcessing_frame s
      exact ⟨hc, hth⟩
  | tick ms => exact ⟨rfl, rfl⟩

/-- The configured limits are constant along any run. -/
lemma runOps_config (s : QState α) (ops : List (Op α)) :
    (runOps s ops).concurrency = s.concurrency ∧
      (runOps s ops).threshold = s.threshold := by
  induction ops generalizing s with
  | nil => exact ⟨rfl, rfl⟩
  | cons op rest ih =>
    obtain ⟨ih1, ih2⟩ := ih (runOp s op)
    obtain ⟨h1, h2⟩ := runOp_config s op
    exact ⟨ih1.trans h1, ih2.trans h2⟩

/-! Claim theorems. -/

/-- C1: enqueue fails with QueueOverloadedError iff
pending.length + processing.size + 1 ≥ threshold at the call; on failure
the item is not stored, a rejection is reported (incTooMany) and the
dispatch loop is not invoked; consequently along any run from a fresh
queue with positive threshold the resident count never exceeds
threshold - 1. -/
theorem enqueue_admission_control (α : Type) :
    (∀ (s : QState α) (a : α),
      ((enqueue s a).1 = Except.error QueueOverloadedError.mk ↔
        s.pending.length + s.inFlight.length + 1 ≥ s.threshold)) ∧
    (∀ (s : QState α) (a : α),
      s.pending.length + s.inFlight.length + 1 ≥ s.threshold →
        (enqueue s a).2.pending = s.pending ∧
        (enqueue s a).2.tooMany = s.tooMany + 1 ∧
        (enqueue s a).2.dispatchCalls = s.dispatchCalls) ∧
    (∀ (concurrency threshold : Nat) (disabled : Bool) (ops : List (Op α)),
      1 ≤ threshold →
        (runOps (initQ α concurrency threshold disabled) ops).pending.length +
          (runOps (initQ α concurrency threshold disabled) ops).inFlight.length
          ≤ threshold - 1) := by
  refine ⟨?_, ?_, ?_⟩
  · intro s a
    rw [enqueue_eq]
    by_cases hover : s.pending.length + s.inFlight.length + 1 ≥ s.threshold
    · rw [if_pos hover]
      exact ⟨fun _ => hover, fun _ => rfl⟩
    · rw [if_neg hover]
      simp [hover]
  · intro s a hover
    rw [enqueue_eq, if_pos hover]
    exact ⟨rfl, rfl, rfl⟩
  · intro concurrency threshold disabled ops hth
    have hinv := runOps_inv (initQ α concurrency threshold disabled) ops
      (initQ_inv concurrency threshold disabled)
    obtain ⟨-, -, -, -, -, -, hcap⟩ := hinv
    obtain ⟨-, hthc⟩ := runOps_config (initQ α concurrency threshold disabled) ops
    rw [hthc] at hcap
    have hit : (initQ α concurrency threshold disabled).threshold = threshold := rfl
    rw [hit] at hcap
    have := hcap hth
    omega

/-- Witness for C1 at threshold 1 (immediate rejection) and threshold 5
(two admissions stay within the bound). -/
theorem enqueue_admission_control_witness :
    ((enqueue (initQ Nat 2 1 false) 7).2.pending = [] ∧
      (enqueue (initQ Nat 2 1 false) 7).2.tooMany = 1 ∧
      (enqueue (initQ Nat 2 1 false) 7).2.dispatchCalls = 0) ∧
    (runOps (initQ Nat 2 5 false) [Op.enq 1, Op.enq 2]).pending.length +
      (runOps (initQ Nat 2 5 false) [Op.enq 1, Op.enq 2]).inFlight.length ≤ 4 := by
  constructor
  · exact (enqueue_admission_control Nat).2.1 (initQ Nat 2 1 false) 7 (by decide)
  · exact (enqueue_admission_control Nat).2.2 2 5 false [Op.enq 1, Op.enq 2] (by decide)

/-- C2: along any run from a fresh queue, the in-flight count never
exceeds the configured concurrency; and the dispatch loop starts nothing
when the guard (a free slot and a pending item) fails. -/
theorem inFlight_concurrency_bound (α : Type) :
    (∀ (concurrency threshold : Nat) (disabled : Bool) (ops : List (Op α)),
      (runOps (initQ α concurrency threshold disabled) ops).inFlight.length ≤ concurrency) ∧
    (∀ s : QState α, (s.concurrency ≤ s.inFlight.length ∨ s.pending = []) →
      (scheduleProcessing s).inFlight = s.inFlight ∧
      (scheduleProcessing s).started = s.started ∧
      (scheduleProcessing s).pending = s.pending) := by
  constructor
  · intro concurrency threshold disabled ops
    have hinv := runOps_inv (initQ α concurrency threshold disabled) ops
      (initQ_inv concurrency threshold disabled)
    obtain ⟨-, -, hle, -, -, -, -⟩ := hinv
    obtain ⟨hcc, -⟩ := runOps_config (initQ α concurrency threshold disabled) ops
    rw [hcc] at hle
    exact hle
  · intro s h
    rw [scheduleProcessing_noStart s h]
    exact ⟨rfl, rfl, rfl⟩

/-- Witness for C2: a saturated queue (concurrency 0) schedules nothing
even with a pending item, and a short run respects the bound. -/
theorem inFlight_concurrency_bound_witness :
    (runOps (initQ Nat 1 10 false) [Op.enq 1, Op.enq 2]).inFlight.length ≤ 1 ∧
    ((scheduleProcessing { initQ Nat 0 10 false with pending := [(5, 0)] }).inFlight
        = ([] : List Nat) ∧
      (scheduleProcessing { initQ Nat 0 10 false with pending := [(5, 0)] }).started
        = ([] : List Nat) ∧
      (scheduleProcessing { initQ Nat 0 10 false with pending := [(5, 0)] }).pending
        = [(5, 0)]) := by
  constructor
  · exact (inFlight_concurrency_bound Nat).1 1 10 false [Op.enq 1, Op.enq 2]
  · exact (inFlight_concurrency_bound Nat).2
      { initQ Nat 0 10 false with pending := [(5, 0)] } (Or.inl (by decide))

/-- C3: the drain idle test is true exactly when pending and the
processing set are both empty (so drain resolves immediately when already
idle and only ever resolves in idle states); and in any run without
external dequeues, an idle state means every admitted item has settled
(completed or permanently failed). -/
theorem drain_resolves_exactly_when_idle (α : Type) :
    (∀ s : QState α,
      drainResolvesNow s = true ↔ (s.pending = [] ∧ s.inFlight = [])) ∧
    (∀ (concurrency threshold : Nat) (disabled : Bool) (ops : List (Op α)),
      (runOps (initQ α concurrency threshold disabled) ops).extDequeued = [] →
      drainResolvesNow (runOps (initQ α concurrency threshold disabled) ops) = true →
        (runOps (initQ α concurrency threshold disabled) ops).settled =
          (runOps (initQ α concurrency threshold disabled) ops).admitted.length) := by
  constructor
  · intro s
    simp [drainResolvesNow, List.length_eq_zero]
  · intro concurrency threshold disabled ops hext hidle
    have hinv := runOps_inv (initQ α concurrency threshold disabled) ops
      (initQ_inv concurrency threshold disabled)
    obtain ⟨-, -, -, hacct, hstart, -, -⟩ := hinv
    rw [hext] at hacct
    simp only [List.length_nil] at hacct
    simp only [drainResolvesNow, Bool.and_eq_true, beq_iff_eq] at hidle
    obtain ⟨hp0, hf0⟩ := hidle
    rw [hp0] at hacct
    rw [hf0] at hstart
    omega

/-- Witness for C3: enqueue one item, let its invocation settle; the
final state is idle and its settled count equals the admitted count. -/
theorem drain_resolves_exactly_when_idle_witness :
    (drainResolvesNow (initQ Nat 1 10 false) = true ↔
      ((initQ Nat 1 10 false).pending = [] ∧ (initQ Nat 1 10 false).inFlight = [])) ∧
    (runOps (initQ Nat 1 10 false) [Op.enq 5, Op.complete 0 true]).settled =
      (runOps (initQ Nat 1 10 false) [Op.enq 5, Op.complete 0 true]).admitted.length := by
  constructor
  · exact (drain_resolves_exactly_when_idle Nat).1 (initQ Nat 1 10 false)
  · exact (drain_resolves_exactly_when_idle Nat).2 1 10 false
      [Op.enq 5, Op.complete 0 true] (by decide) (by decide)

/-- C4: the retrying processor makes at most two attempts; a successful
first attempt means one attempt, no inter-attempt delay and success; a
failed first attempt means exactly one more attempt after exactly one
inter-attempt delay; a second failure propagates as ProcessingError. -/
theorem processWithRetry_policy (ok1 ok2 : Bool) :
    attemptCount (processWithRetry ok1 ok2).2 ≤ 2 ∧
    (ok1 = true →
      (processWithRetry ok1 ok2).2 = [PEvent.delay, PEvent.attempt 1] ∧
      interAttemptDelays (processWithRetry ok1 ok2).2 = 0 ∧
      (processWithRetry ok1 ok2).1 = Except.ok ()) ∧
    (ok1 = false →
      (processWithRetry ok1 ok2).2 =
        [PEvent.delay, PEvent.attempt 1, PEvent.delay, PEvent.attempt 2] ∧
      attemptCount (processWithRetry ok1 ok2).2 = 2 ∧
      interAttemptDelays (processWithRetry ok1 ok2).2 = 1) ∧
    (ok1 = false → ok2 = false →
      (processWithRetry ok1 ok2).1 = Except.error ProcessingError.mk) ∧
    (ok1 = false → ok2 = true → (processWithRetry ok1 ok2).1 = Except.ok ()) := by
  cases ok1 <;> cases ok2
  case false.false =>
    exact ⟨by decide, fun h => absurd h (by decide), fun _ => by decide,
      fun _ _ => by decide, fun _ h => absurd h (by decide)⟩
  case false.true =>
    exact ⟨by decide, fun h => absurd h (by decide), fun _ => by decide,
      fun _ h => absurd h (by decide), fun _ _ => by decide⟩
  case true.false =>
    exact ⟨by decide, fun _ => by decide, fun h => absurd h (by decide),
      fun h => absurd h (by decide), fun h => absurd h (by decide)⟩
  case true.true =>
    exact ⟨by decide, fun _ => by decide, fun h => absurd h (by decide),
      fun h => absurd h (by decide), fun h => absurd h (by decide)⟩

/-- Witness for C4: first attempt fails, second succeeds — two attempts,
one inter-attempt delay, overall success. -/
theorem processWithRetry_policy_witness :
    (processWithRetry false true).2 =
      [PEvent.delay, PEvent.attempt 1, PEvent.delay, PEvent.attempt 2] ∧
    interAttemptDelays (processWithRetry false true).2 = 1 ∧
    (processWithRetry false true).1 = Except.ok () := by
  refine ⟨((processWithRetry_policy false true).2.2.1 rfl).1,
    ((processWithRetry_policy false true).2.2.1 rfl).2.2,
    (processWithRetry_policy false true).2.2.2.2 rfl rfl⟩

/-- C5: reachable states satisfy the invariant, and whenever an in-flight
invocation settles (success or final failure) its token is released, the
depth metric is updated, the dispatch loop is re-triggered, and the
processed counter is incremented only on success. -/
theorem complete_releases_and_repumps (α : Type) :
    (∀ (concurrency threshold : Nat) (disabled : Bool) (ops : List (Op α)),
      StateInv (runOps (initQ α concurrency threshold disabled) ops)) ∧
    (∀ (s : QState α) (t : Nat) (b : Bool), StateInv s → t ∈ s.inFlight →
      t ∉ (complete s t b).inFlight ∧
      (complete s t b).dispatchCalls = s.dispatchCalls + 1 ∧
      s.depthLog.length < (complete s t b).depthLog.length ∧
      (complete s t b).processed = (if b then s.processed + 1 else s.processed)) := by
  constructor
  · intro concurrency threshold disabled ops
    exact runOps_inv (initQ α concurrency threshold disabled) ops
      (initQ_inv concurrency threshold disabled)
  · intro s t b hinv ht
    obtain ⟨h1, h2, -, -, -, -, -⟩ := hinv
    obtain ⟨fp, ff, fn, -, -, -, -, -, fse, -, fd, -, -, fdc⟩ := processItem_frame s b
    show t ∉ (complete s t b).inFlight ∧ _ ∧ _ ∧ _
    unfold complete
    rw [if_pos ht]
    obtain ⟨-, -, -, -, -, -, gproc, -, gdc, -, -, -⟩ := scheduleProcessing_frame
      (setQueueLength
        { (processItem s b).2 with
            inFlight := (processItem s b).2.inFlight.erase t,
            settled := (processItem s b).2.settled + 1 }
        (totalItems { (processItem s b).2 with
            inFlight := (processItem s b).2.inFlight.erase t,
            settled := (processItem s b).2.settled + 1 }))
    refine ⟨?_, ?_, ?_, ?_⟩
    · intro hmem
      rcases scheduleProcessing_inFlight_mem _ t hmem with hin | hge
      · have : t ∈ s.inFlight.erase t := by
          have hf' : (setQueueLength
              { (processItem s b).2 with
                  inFlight := (processItem s b).2.inFlight.erase t,
                  settled := (processItem s b).2.settled + 1 }
              (totalItems { (processItem s b).2 with
                  inFlight := (processItem s b).2.inFlight.erase t,
                  settled := (processItem s b).2.settled + 1 })).inFlight
              = s.inFlight.erase t := by
            show (processItem s b).2.inFlight.erase t = s.inFlight.erase t
            rw [ff]
          rw [hf'] at hin
          exact hin
        rw [h1.mem_erase_iff] at this
        exact this.1 rfl
      · have hn' : (setQueueLength
            { (processItem s b).2 with
                inFlight := (processItem s b).2.inFlight.erase t,
                settled := (processItem s b).2.settled + 1 }
            (totalItems { (processItem s b).2 with
                inFlight := (processItem s b).2.inFlight.erase t,
                settled := (processItem s b).2.settled + 1 })).nextToken
            = s.nextToken := by
          show (processItem s b).2.nextToken = s.nextToken
          rw [fn]
        rw [hn'] at hge
        exact absurd (h2 t ht) (Nat.not_lt.mpr hge)
    · rw [gdc]
      show (processItem s b).2.dispatchCalls + 1 = s.dispatchCalls + 1
      rw [fdc]
    · have hmono := scheduleProcessing_depthLog_mono
        (setQueueLength
          { (processItem s b).2 with
              inFlight := (processItem s b).2.inFlight.erase t,
              settled := (processItem s b).2.settled + 1 }
          (totalItems { (processItem s b).2 with
              inFlight := (processItem s b).2.inFlight.erase t,
              settled := (processItem s b).2.settled + 1 }))
      have hstep : (setQueueLength
          { (processItem s b).2 with
              inFlight := (processItem s b).2.inFlight.erase t,
              settled := (processItem s b).2.settled + 1 }
          (totalItems { (processItem s b).2 with
              inFlight := (processItem s b).2.inFlight.erase t,
              settled := (processItem s b).2.settled + 1 })).depthLog.length
          = s.depthLog.length + 1 := by
        show ((processItem s b).2.depthLog ++ [_]).length = s.depthLog.length + 1
        rw [List.length_append, fd]
        rfl
      exact lt_of_lt_of_le (by omega) hmono
    · rw [gproc]
      show (processItem s b).2.processed = _
      rw [processItem_processed]

/-- Witness for C5: after one enqueue on a fresh queue the dispatched
invocation holds token 0; settling it with failure releases the token,
re-triggers the loop and leaves the processed counter untouched. -/
theorem complete_releases_and_repumps_witness :
    0 ∉ (complete (runOps (initQ Nat 1 10 false) [Op.enq 4]) 0 false).inFlight ∧
    (complete (runOps (initQ Nat 1 10 false) [Op.enq 4]) 0 false).dispatchCalls =
      (runOps (initQ Nat 1 10 false) [Op.enq 4]).dispatchCalls + 1 ∧
    (runOps (initQ Nat 1 10 false) [Op.enq 4]).depthLog.length <
      (complete (runOps (initQ Nat 1 10 false) [Op.enq 4]) 0 false).depthLog.length ∧
    (complete (runOps (initQ Nat 1 10 false) [Op.enq 4]) 0 false).processed =
      (if false then (runOps (initQ Nat 1 10 false) [Op.enq 4]).processed + 1
        else (runOps (initQ Nat 1 10 false) [Op.enq 4]).processed) :=
  (complete_releases_and_repumps Nat).2 (runOps (initQ Nat 1 10 false) [Op.enq 4]) 0 false
    ((complete_releases_and_repumps Nat).1 1 10 false [Op.enq 4]) (by decide)

/-- C6: dequeue removes and returns the pending head (FIFO) and returns
the empty signal on an empty queue leaving the state unchanged; in any
run without external dequeues, the admitted log equals the started log
followed by the remaining pending payloads, so items are started —
and with concurrency 1 processed — in exactly admission order. -/
theorem dequeue_fifo_order (α : Type) :
    (∀ s : QState α, s.pending = [] → dequeue s = (none, s)) ∧
    (∀ (s : QState α) (e : α × Nat) (rest : List (α × Nat)),
      s.pending = e :: rest →
        (dequeue s).1 = some e.1 ∧ (dequeue s).2.pending = rest) ∧
    (∀ (concurrency threshold : Nat) (disabled : Bool) (ops : List (Op α)),
      (runOps (initQ α concurrency threshold disabled) ops).extDequeued = [] →
        (runOps (initQ α concurrency threshold disabled) ops).admitted =
          (runOps (initQ α concurrency threshold disabled) ops).started ++
            (runOps (initQ α concurrency threshold disabled) ops).pending.map Prod.fst) := by
  refine ⟨?_, ?_, ?_⟩
  · exact fun s hp => dequeue_nil s hp
  · intro s e rest hp
    rw [dequeue_cons s e rest hp]
    exact ⟨rfl, rfl⟩
  · intro concurrency threshold disabled ops hext
    have hinv := runOps_inv (initQ α concurrency threshold disabled) ops
      (initQ_inv concurrency threshold disabled)
    obtain ⟨-, -, -, -, -, hfifo, -⟩ := hinv
    exact hfifo hext

/-- Witness for C6: dequeue of a one-element queue yields that element;
dequeue of an empty queue yields the empty signal; a three-enqueue run
(concurrency 1) has started exactly the first admitted item, in order. -/
theorem dequeue_fifo_order_witness :
    dequeue (initQ Nat 1 10 false) = (none, initQ Nat 1 10 false) ∧
    ((dequeue { initQ Nat 1 10 false with pending := [(3, 0)] }).1 = some 3 ∧
      (dequeue { initQ Nat 1 10 false with pending := [(3, 0)] }).2.pending = []) ∧
    (runOps (initQ Nat 1 10 false) [Op.enq 1, Op.enq 2, Op.enq 3]).admitted =
      (runOps (initQ Nat 1 10 false) [Op.enq 1, Op.enq 2, Op.enq 3]).started ++
        (runOps (initQ Nat 1 10 false) [Op.enq 1, Op.enq 2, Op.enq 3]).pending.map
          Prod.fst := by
  refine ⟨?_, ?_, ?_⟩
  · exact (dequeue_fifo_order Nat).1 (initQ Nat 1 10 false) rfl
  · exact (dequeue_fifo_order Nat).2.1
      { initQ Nat 1 10 false with pending := [(3, 0)] } (3, 0) [] rfl
  · exact (dequeue_fifo_order Nat).2.2 1 10 false [Op.enq 1, Op.enq 2, Op.enq 3]
      (by decide)

/-- C7: size() and totalItems() agree in every reachable state and both
equal the direct recount of pending plus in-flight — they are a single
computed value, not separately maintained counters, so no drift is
possible along any run. -/
theorem size_totalItems_single_recount (α : Type) :
    ∀ (concurrency threshold : Nat) (disabled : Bool) (ops : List (Op α)),
      size (runOps (initQ α concurrency threshold disabled) ops) =
        totalItems (runOps (initQ α concurrency threshold disabled) ops) ∧
      totalItems (runOps (initQ α concurrency threshold disabled) ops) =
        (runOps (initQ α concurrency threshold disabled) ops).pending.length +
          (runOps (initQ α concurrency threshold disabled) ops).inFlight.length :=
  fun _ _ _ _ => ⟨rfl, rfl⟩

/-- C8: the WorkerPool's default "disable queue processing" patch replaces
only the deprecated processNext with a no-op, but enqueue invokes
_scheduleProcessing directly: on a queue constructed in that mode a single
enqueue is still dequeued and started by the internal dispatch loop, so
both dispatch mechanisms pull from pending. -/
theorem workerPool_disable_ineffective :
    processNext (initQ Nat 1 10 true) = initQ Nat 1 10 true ∧
    (enqueue (initQ Nat 1 10 true) 7).2.started = [7] ∧
    (enqueue (initQ Nat 1 10 true) 7).2.pending = [] ∧
    (enqueue (initQ Nat 1 10 true) 7).2.inFlight.length = 1 := by
  exact ⟨rfl, by decide, by decide, by decide⟩

/-- C9: the WorkerPool's worker loop path (dequeue then processItem)
never touches the processing set: no token is added, totalItems drops by
the dequeued item immediately, and on a queue holding a single pending
item the drain idle test already passes while the worker still processes
the item. -/
theorem workerLoop_bypasses_inFlight (α : Type) :
    (∀ (s : QState α) (e : α × Nat) (rest : List (α × Nat)) (b : Bool),
      s.pending = e :: rest →
        (dequeue s).1 = some e.1 ∧
        (dequeue s).2.inFlight = s.inFlight ∧
        (processItem (dequeue s).2 b).2.inFlight = s.inFlight ∧
        totalItems (processItem (dequeue s).2 b).2 = rest.length + s.inFlight.length) ∧
    (∀ (s : QState α) (e : α × Nat) (b : Bool),
      s.pending = [e] → s.inFlight = [] →
        drainResolvesNow (dequeue s).2 = true ∧
        drainResolvesNow (processItem (dequeue s).2 b).2 = true) := by
  constructor
  · intro s e rest b hp
    rw [dequeue_cons s e rest hp]
    obtain ⟨fp, ff, -, -, -, -, -, -, -, -, -, -, -, -⟩ :=
      processItem_frame (deqState s e rest) b
    refine ⟨rfl, rfl, ?_, ?_⟩
    · rw [ff]
      rfl
    · show (processItem (deqState s e rest) b).2.pending.length +
        (processItem (deqState s e rest) b).2.inFlight.length = _
      rw [ff, fp]
      rfl
  · intro s e b hp hf
    rw [dequeue_cons s e [] hp]
    obtain ⟨fp, ff, -, -, -, -, -, -, -, -, -, -, -, -⟩ :=
      processItem_frame (deqState s e []) b
    constructor
    · simp [drainResolvesNow, hf]
    · simp [drainResolvesNow, fp, ff, hf]

/-- Witness for C9: a queue holding one pending item and nothing in
flight; the worker dequeues it and the idle test passes while it is being
processed. -/
theorem workerLoop_bypasses_inFlight_witness :
    ((dequeue { initQ Nat 10 100 true with pending := [(5, 0)] }).1 = some 5 ∧
      (dequeue { initQ Nat 10 100 true with pending := [(5, 0)] }).2.inFlight = [] ∧
      (processItem (dequeue { initQ Nat 10 100 true with pending := [(5, 0)] }).2
        true).2.inFlight = [] ∧
      totalItems (processItem
        (dequeue { initQ Nat 10 100 true with pending := [(5, 0)] }).2 true).2 = 0) ∧
    drainResolvesNow
      (processItem (dequeue { initQ Nat 10 100 true with pending := [(5, 0)] }).2
        true).2 = true := by
  constructor
  · exact (workerLoop_bypasses_inFlight Nat).1
      { initQ Nat 10 100 true with pending := [(5, 0)] } (5, 0) [] true rfl
  · exact ((workerLoop_bypasses_inFlight Nat).2
      { initQ Nat 10 100 true with pending := [(5, 0)] } (5, 0) true rfl rfl).2

/-- C10: every enqueue reports exactly one arrival (incReceived), also
when it fails with QueueOverloadedError — the arrival is recorded before
the admission check — so a rejected call reports both an arrival and a
rejection. -/
theorem enqueue_always_reports_arrival (α : Type) :
    ∀ (s : QState α) (a : α),
      (enqueue s a).2.received = s.received + 1 ∧
      ((enqueue s a).1 = Except.error QueueOverloadedError.mk →
        (enqueue s a).2.received = s.received + 1 ∧
        (enqueue s a).2.tooMany = s.tooMany + 1) := by
  intro s a
  rw [enqueue_eq]
  by_cases hover : s.pending.length + s.inFlight.length + 1 ≥ s.threshold
  · rw [if_pos hover]
    exact ⟨rfl, fun _ => ⟨rfl, rfl⟩⟩
  · rw [if_neg hover]
    obtain ⟨-, -, -, -, hr, -, -, -, -, -, -, -⟩ := scheduleProcessing_frame
      (setQueueLength
        { incReceived s with
            pending := s.pending ++ [(a, s.clock)],
            admitted := s.admitted ++ [a] }
        (totalItems { incReceived s with
            pending := s.pending ++ [(a, s.clock)],
            admitted := s.admitted ++ [a] }))
    refine ⟨hr, ?_⟩
    intro hEq
    exact absurd hEq (by simp)

/-- Witness for C10: a rejected enqueue (threshold 1) reports one arrival
and one rejection. -/
theorem enqueue_always_reports_arrival_witness :
    (enqueue (initQ Nat 1 1 false) 3).2.received = 1 ∧
    (enqueue (initQ Nat 1 1 false) 3).2.tooMany = 1 := by
  refine ⟨(enqueue_always_reports_arrival Nat (initQ Nat 1 1 false) 3).1, ?_⟩
  exact ((enqueue_always_reports_arrival Nat (initQ Nat 1 1 false) 3).2 (by decide)).2

end Webhook
